import Mathlib

/-!
# Verification of the Synaptic PDF extraction scripts

Shallow embedding of `src/scripts/extract-pdf-pymupdf.py` (text extraction)
and `src/scripts/extract-pdf-images.py` (image extraction).  Page texts and
image data that the PyMuPDF library would return are inputs of the embedded
functions; the scripts' own logic (offset accounting, filtering, result
assembly, exit codes) is translated faithfully from the Python source.

Strings extracted from pages are modelled as `List Char` (Python `len` on
`str` counts characters, as `List.length` does here); image byte strings are
modelled as `List Nat` with every element below 256.
-/

namespace Synaptic

/-- Python `str.strip()` on a list of characters: drop leading and trailing
whitespace. -/
def pyStrip (s : List Char) : List Char :=
  ((s.dropWhile Char.isWhitespace).reverse.dropWhile Char.isWhitespace).reverse

/-- Python slice `s[a:b]` for `a ≤ b` on a character list. -/
def pySlice (s : List Char) (a b : Nat) : List Char :=
  (s.drop a).take (b - a)

/-- The two-character join separator `"\n\n"` (line 82 of the text script). -/
def nl2 : List Char := ['\n', '\n']

/-- One entry of the `pages` array produced by the text extractor
(lines 69-74 of `extract-pdf-pymupdf.py`). -/
structure PageData where
  pageNumber : Nat
  text : List Char
  startOffset : Nat
  endOffset : Nat
  deriving Repr, DecidableEq

/-- The loop of `extract_text_from_pdf` (lines 59-79): walk the pages,
keeping the included page texts (`text_parts`), the page records
(`pages_data`) and the running character offset.  A page whose stripped text
is empty is skipped and advances nothing. -/
def extractPages : List (List Char) → Nat → Nat → List (List Char) × List PageData
  | [], _, _ => ([], [])
  | t :: rest, pageNum, off =>
    if pyStrip t ≠ [] then
      let pd : PageData :=
        { pageNumber := pageNum + 1
          text := t
          startOffset := off
          endOffset := off + t.length }
      let r := extractPages rest (pageNum + 1) (off + t.length + 2)
      (t :: r.1, pd :: r.2)
    else
      extractPages rest (pageNum + 1) off

/-- JSON result object of the text extractor: optional fields model keys
present only on some branches. -/
structure TextResult where
  success : Bool
  text : Option (List Char)
  pageCount : Option Nat
  pages : Option (List PageData)
  error : Option String
  method : String
  deriving Repr, DecidableEq

/-- Error message of the content-insufficient branch (line 91). -/
def ocrError : String :=
  "No text could be extracted from this PDF. It might be a scanned document or contain only images. Consider using OCR software."

/-- `extract_text_from_pdf` (lines 39-102), on the path where the document
opens successfully; `docPages` is the list of page texts PyMuPDF returns. -/
def extract_text_from_pdf (docPages : List (List Char)) : TextResult :=
  let r := extractPages docPages 0 0
  let full_text := List.intercalate nl2 r.1
  if full_text = [] ∨ (pyStrip full_text).length < 100 then
    { success := false
      text := none
      pageCount := some docPages.length
      pages := none
      error := some ocrError
      method := "pymupdf" }
  else
    { success := true
      text := some full_text
      pageCount := some docPages.length
      pages := some r.2
      error := none
      method := "pymupdf" }

/-- Usage error message of the text extractor's `main` (line 128). -/
def textUsageError : String :=
  "Usage: python3 extract-pdf-pymupdf.py <pdf_file_path>"

/-- Outcome of running a script `main`: the JSON object printed to stdout,
the process exit code, and whether the PDF library was invoked. -/
structure MainOutcome (α : Type) where
  printed : α
  exitCode : Nat
  libraryCalled : Bool
  deriving Repr, DecidableEq

/-- `main` of the text extractor (lines 123-143): `argv` includes the program
name at position 0, as `sys.argv` does; `docPages` models the content behind
the path argument. -/
def text_main (argv : List String) (docPages : List (List Char)) :
    MainOutcome TextResult :=
  if argv.length < 2 then
    { printed :=
        { success := false
          text := none
          pageCount := none
          pages := none
          error := some textUsageError
          method := "pymupdf" }
      exitCode := 1
      libraryCalled := false }
  else
    let result := extract_text_from_pdf docPages
    { printed := result
      exitCode := if result.success then 0 else 1
      libraryCalled := true }

/-- Offset chaining: each record's `endOffset` is `startOffset` plus its text
length, the first record starts at `s`, and each later record starts at the
previous record's `endOffset + 2`. -/
def chainedFrom : Nat → List PageData → Prop
  | _, [] => True
  | s, p :: rest =>
    p.startOffset = s ∧ p.endOffset = p.startOffset + p.text.length ∧
      chainedFrom (p.endOffset + 2) rest

def chainedFromDec : ∀ s ps, Decidable (chainedFrom s ps)
  | _, [] => .isTrue trivial
  | _, p :: rest =>
    have : Decidable (chainedFrom (p.endOffset + 2) rest) := chainedFromDec _ _
    inferInstanceAs (Decidable (_ ∧ _ ∧ _))

instance : ∀ s ps, Decidable (chainedFrom s ps) := chainedFromDec

theorem pyStrip_nil : pyStrip [] = [] := rfl

theorem extractPages_chained (d : List (List Char)) :
    ∀ i off, chainedFrom off (extractPages d i off).2 := by
  induction d with
  | nil => intro i off; trivial
  | cons t rest ih =>
    intro i off
    by_cases h : pyStrip t ≠ []
    · simp only [extractPages, if_pos h]
      exact ⟨rfl, rfl, ih _ _⟩
    · simp only [extractPages, if_neg h]
      exact ih _ _

theorem extractPages_text_ne (d : List (List Char)) :
    ∀ i off p, p ∈ (extractPages d i off).2 → p.text ≠ [] := by
  induction d with
  | nil => intro i off p hp; cases hp
  | cons t rest ih =>
    intro i off p hp
    by_cases h : pyStrip t ≠ []
    · simp only [extractPages, if_pos h] at hp
      rcases List.mem_cons.mp hp with rfl | hp'
      · intro ht
        apply h
        have ht' : t = [] := ht
        rw [ht']
        rfl
      · exact ih _ _ p hp'
    · simp only [extractPages, if_neg h] at hp
      exact ih _ _ p hp

theorem extractPages_parts (d : List (List Char)) :
    ∀ i off, (extractPages d i off).1 = (extractPages d i off).2.map PageData.text := by
  induction d with
  | nil => intro i off; rfl
  | cons t rest ih =>
    intro i off
    by_cases h : pyStrip t ≠ []
    · simp only [extractPages, if_pos h, List.map_cons]
      rw [ih]
    · simp only [extractPages, if_neg h]
      exact ih _ _

theorem chainedFrom_mem_end : ∀ (s : Nat) (ps : List PageData), chainedFrom s ps →
    ∀ p ∈ ps, p.endOffset = p.startOffset + p.text.length := by
  intro s ps
  induction ps generalizing s with
  | nil => intro _ p hp; cases hp
  | cons q rest ih =>
    intro hch p hp
    obtain ⟨_, hqe, hrest⟩ := hch
    rcases List.mem_cons.mp hp with rfl | hp'
    · exact hqe
    · exact ih _ hrest p hp'

theorem chainedFrom_mem_le : ∀ (s : Nat) (ps : List PageData), chainedFrom s ps →
    ∀ p ∈ ps, s ≤ p.startOffset := by
  intro s ps
  induction ps generalizing s with
  | nil => intro _ p hp; cases hp
  | cons q rest ih =>
    intro hch p hp
    obtain ⟨hqs, hqe, hrest⟩ := hch
    rcases List.mem_cons.mp hp with rfl | hp'
    · omega
    · have := ih _ hrest p hp'
      omega

theorem drop_append_ge {α : Type} (l1 l2 : List α) (n : Nat) (h : l1.length ≤ n) :
    (l1 ++ l2).drop n = l2.drop (n - l1.length) :=
  calc (l1 ++ l2).drop n
      = (l1 ++ l2).drop (l1.length + (n - l1.length)) := by
        rw [Nat.add_sub_cancel' h]
    _ = l2.drop (n - l1.length) := List.drop_append _

theorem intercalate_cons_cons (sep x y : List Char) (t : List (List Char)) :
    List.intercalate sep (x :: y :: t) = x ++ sep ++ List.intercalate sep (y :: t) := by
  simp [List.intercalate, List.intersperse]

theorem intercalate_singleton (sep x : List Char) :
    List.intercalate sep [x] = x := by
  simp [List.intercalate, List.intersperse]

/-- Core slicing fact: when page records are offset-chained starting at `s`,
the Python slice of the `"\n\n"`-joined text at each record's offsets
(shifted down by `s`) recovers that record's text. -/
theorem slice_intercalate : ∀ (ps : List PageData) (s : Nat), chainedFrom s ps →
    ∀ p ∈ ps,
      pySlice (List.intercalate nl2 (ps.map PageData.text))
        (p.startOffset - s) (p.endOffset - s) = p.text := by
  intro ps
  induction ps with
  | nil => intro s _ p hp; cases hp
  | cons q rest ih =>
    intro s hch p hp
    obtain ⟨hqs, hqe, hrest⟩ := hch
    rcases List.mem_cons.mp hp with rfl | hp'
    · -- the head record: its slice is an initial segment of the join
      subst hqs
      cases rest with
      | nil =>
        simp only [List.map_cons, List.map_nil, intercalate_singleton, pySlice,
          Nat.sub_self, List.drop_zero, hqe, Nat.add_sub_cancel_left, Nat.sub_zero]
        exact List.take_length _
      | cons r2 t2 =>
        simp only [List.map_cons]
        rw [intercalate_cons_cons]
        simp only [pySlice, Nat.sub_self, List.drop_zero, hqe,
          Nat.add_sub_cancel_left, Nat.sub_zero]
        rw [List.append_assoc]
        exact List.take_left _ _
    · -- a record of the tail: shift past the head text and the separator
      cases rest with
      | nil => cases hp'
      | cons r2 t2 =>
        simp only [List.map_cons]
        rw [intercalate_cons_cons]
        have hle : q.endOffset + 2 ≤ p.startOffset :=
          chainedFrom_mem_le _ _ hrest p hp'
        have hpe : p.endOffset = p.startOffset + p.text.length :=
          chainedFrom_mem_end _ _ hrest p hp'
        have key := ih (q.endOffset + 2) hrest p hp'
        have hlen2 : (q.text ++ nl2).length = q.text.length + 2 := by
          rw [List.length_append]
          rfl
        simp only [pySlice] at key ⊢
        rw [drop_append_ge]
        · rw [hlen2]
          have h1 : p.startOffset - s - (q.text.length + 2) =
              p.startOffset - (q.endOffset + 2) := by omega
          have h2 : p.endOffset - s - (p.startOffset - s) =
              p.endOffset - (q.endOffset + 2) - (p.startOffset - (q.endOffset + 2)) := by
            omega
          rw [h1, h2]
          exact key
        · rw [hlen2]
          omega

/-- C1: every successful extraction's `pages` list is offset-chained from 0
(`endOffset = startOffset + length(text)`, first `startOffset` is 0, each
next `startOffset` is the previous `endOffset + 2`), and every record's
range is non-empty, so the ranges are strictly increasing, non-overlapping
and separated by exactly 2 characters; skipped pages advance no offset. -/
theorem text_pages_offsets_chained (d : List (List Char)) (ps : List PageData)
    (h : (extract_text_from_pdf d).pages = some ps) :
    chainedFrom 0 ps ∧ ∀ p ∈ ps, p.startOffset < p.endOffset := by
  simp only [extract_text_from_pdf] at h
  split at h
  · exact absurd h (by simp)
  · simp only [Option.some.injEq] at h
    subst h
    refine ⟨extractPages_chained d 0 0, ?_⟩
    intro p hp
    have h1 := chainedFrom_mem_end _ _ (extractPages_chained d 0 0) p hp
    have h2 := extractPages_text_ne d 0 0 p hp
    have h3 : p.text.length ≠ 0 := fun hc => h2 (List.length_eq_zero.mp hc)
    omega

/-- Witness for C1 at a concrete document: a 100-character page, a skipped
whitespace page, then a 2-character page. -/
theorem text_pages_offsets_chained_witness :
    chainedFrom 0 [⟨1, List.replicate 100 'a', 0, 100⟩, ⟨3, ['b', 'c'], 102, 104⟩] ∧
      ∀ p ∈ [(⟨1, List.replicate 100 'a', 0, 100⟩ : PageData),
             ⟨3, ['b', 'c'], 102, 104⟩], p.startOffset < p.endOffset :=
  text_pages_offsets_chained [List.replicate 100 'a', [' '], ['b', 'c']] _ (by decide)

/-- C2: for every successful extraction, the full `text` is the
`"\n\n"`-join of the included pages' texts, and slicing `text` at each
record's `[startOffset, endOffset)` recovers that record's text. -/
theorem text_join_reproduces (d : List (List Char)) (t : List Char) (ps : List PageData)
    (ht : (extract_text_from_pdf d).text = some t)
    (hp : (extract_text_from_pdf d).pages = some ps) :
    t = List.intercalate nl2 (ps.map PageData.text) ∧
      ∀ p ∈ ps, pySlice t p.startOffset p.endOffset = p.text := by
  simp only [extract_text_from_pdf] at ht hp
  split at hp <;> rename_i hcond
  · exact absurd hp (by simp)
  · rw [if_neg hcond] at ht
    simp only [Option.some.injEq] at ht hp
    subst ht
    subst hp
    constructor
    · rw [extractPages_parts]
    · intro p hpmem
      have := slice_intercalate (extractPages d 0 0).2 0
        (extractPages_chained d 0 0) p hpmem
      simp only [Nat.sub_zero] at this
      rw [extractPages_parts]
      exact this

/-- Witness for C2 at a concrete document (one 100-character page, one
skipped whitespace page, one 2-character page). -/
theorem text_join_reproduces_witness :
    List.replicate 100 'a' ++ ['\n', '\n', 'b', 'c'] =
        List.intercalate nl2
          ([(⟨1, List.replicate 100 'a', 0, 100⟩ : PageData),
            ⟨3, ['b', 'c'], 102, 104⟩].map PageData.text) ∧
      ∀ p ∈ [(⟨1, List.replicate 100 'a', 0, 100⟩ : PageData),
             ⟨3, ['b', 'c'], 102, 104⟩],
        pySlice (List.replicate 100 'a' ++ ['\n', '\n', 'b', 'c'])
          p.startOffset p.endOffset = p.text :=
  text_join_reproduces [List.replicate 100 'a', [' '], ['b', 'c']] _ _
    (by decide) (by decide)

/-- C4: when the document opens but the joined full text is empty or its
stripped length is below 100, the extractor returns `success := false` with
the image-only/OCR diagnostic and still reports `pageCount`, and the
process exits with status 1. -/
theorem text_short_content_failure (prog path : String) (d : List (List Char))
    (h : List.intercalate nl2 (extractPages d 0 0).1 = [] ∨
      (pyStrip (List.intercalate nl2 (extractPages d 0 0).1)).length < 100) :
    extract_text_from_pdf d =
      { success := false, text := none, pageCount := some d.length,
        pages := none, error := some ocrError, method := "pymupdf" } ∧
      (text_main [prog, path] d).exitCode = 1 := by
  have he : extract_text_from_pdf d =
      { success := false, text := none, pageCount := some d.length,
        pages := none, error := some ocrError, method := "pymupdf" } := by
    simp only [extract_text_from_pdf, if_pos h]
  refine ⟨he, ?_⟩
  simp only [text_main, List.length_cons, List.length_nil]
  norm_num
  rw [he]

/-- Witness for C4 at a concrete document with a single 2-character page. -/
theorem text_short_content_failure_witness :
    extract_text_from_pdf [['h', 'i']] =
      { success := false, text := none, pageCount := some 1,
        pages := none, error := some ocrError, method := "pymupdf" } ∧
      (text_main ["prog", "doc.pdf"] [['h', 'i']]).exitCode = 1 :=
  text_short_content_failure "prog" "doc.pdf" [['h', 'i']] (Or.inr (by decide))

/-! ## Image extractor (`extract-pdf-images.py`) -/

/-- The base64 alphabet (RFC 4648), modelling Python's `base64.b64encode`. -/
def b64Alphabet : List Char :=
  ['A', 'B', 'C', 'D', 'E', 'F', 'G', 'H', 'I', 'J', 'K', 'L', 'M',
   'N', 'O', 'P', 'Q', 'R', 'S', 'T', 'U', 'V', 'W', 'X', 'Y', 'Z',
   'a', 'b', 'c', 'd', 'e', 'f', 'g', 'h', 'i', 'j', 'k', 'l', 'm',
   'n', 'o', 'p', 'q', 'r', 's', 't', 'u', 'v', 'w', 'x', 'y', 'z',
   '0', '1', '2', '3', '4', '5', '6', '7', '8', '9', '+', '/']

/-- Character of a 6-bit value. -/
def valToChar (n : Nat) : Char := b64Alphabet.getD n 'A'

/-- 6-bit value of an alphabet character, `none` for '=' and other
non-alphabet characters. -/
def charToVal (c : Char) : Option Nat := List.indexOf? c b64Alphabet

/-- Base64 encoding of a byte string (each byte below 256), with '='
padding, as Python's `base64.b64encode(...).decode('utf-8')` produces. -/
def b64encode : List Nat → List Char
  | [] => []
  | [a] => [valToChar (a / 4), valToChar (a % 4 * 16), '=', '=']
  | [a, b] =>
    [valToChar (a / 4), valToChar (a % 4 * 16 + b / 16), valToChar (b % 16 * 4), '=']
  | a :: b :: c :: t =>
    valToChar (a / 4) :: valToChar (a % 4 * 16 + b / 16) ::
      valToChar (b % 16 * 4 + c / 64) :: valToChar (c % 64) :: b64encode t

/-- Base64 decoding, the inverse reading of `b64encode`'s output format. -/
def b64decode : List Char → Option (List Nat)
  | [] => some []
  | c1 :: c2 :: c3 :: c4 :: rest =>
    if c3 = '=' ∧ c4 = '=' ∧ rest = [] then do
      let a ← charToVal c1
      let b ← charToVal c2
      some [a * 4 + b / 16]
    else if c4 = '=' ∧ rest = [] then do
      let a ← charToVal c1
      let b ← charToVal c2
      let c ← charToVal c3
      some [a * 4 + b / 16, b % 16 * 16 + c / 4]
    else do
      let a ← charToVal c1
      let b ← charToVal c2
      let c ← charToVal c3
      let d ← charToVal c4
      let r ← b64decode rest
      some ((a * 4 + b / 16) :: (b % 16 * 16 + c / 4) :: (c % 4 * 64 + d) :: r)
  | _ => none

/-- The dictionary `doc.extract_image(xref)` returns for an extractable
image: raw bytes, file extension, dimensions, colorspace, bits per
component. -/
structure BaseImage where
  image : List Nat
  ext : String
  width : Nat
  height : Nat
  colorspace : Nat
  bpc : Nat
  deriving Repr, DecidableEq

/-- A placement rectangle, as returned by `page.get_image_rects`.
Coordinates are abstract (no claim depends on their arithmetic). -/
structure Rect where
  x0 : Int
  y0 : Int
  x1 : Int
  y1 : Int
  deriving Repr, DecidableEq

/-- The PyMuPDF-visible content of an open document: per page, the `xref`
entries of `page.get_images(full=True)`; `extractImage` models
`doc.extract_image` (`none` covers both a falsy result and a per-image
exception, both of which the script skips); `imageRects` models
`page.get_image_rects(xref)` on a given page index. -/
structure PDFImages where
  pages : List (List Nat)
  extractImage : Nat → Option BaseImage
  imageRects : Nat → Nat → List Rect

/-- One entry of the `images` array (lines 109-135 of
`extract-pdf-images.py`); optional fields model keys present only on some
branches. -/
structure ImageInfo where
  pageNumber : Nat
  imageIndex : Nat
  filename : String
  width : Nat
  height : Nat
  colorspace : Nat
  bitsPerComponent : Nat
  xref : Nat
  extension : String
  sizeBytes : Nat
  bbox : Option Rect
  filepath : Option String
  base64 : Option (List Char)
  mimeType : Option String
  deriving Repr, DecidableEq

/-- `os.path.join(output_dir, filename)` for a directory without a trailing
separator and a relative filename, the shape the script always passes. -/
def pathJoin (dir filename : String) : String := dir ++ "/" ++ filename

/-- Assemble one image record (lines 106-135): filename
`page_<n>_img_<i>.<ext>`, metadata from the base image, and either a
`filepath` (output directory supplied) or inline `base64`/`mimeType`. -/
def mkImageInfo (outputDir : Option String) (pageNum imgIndex xref : Nat)
    (b : BaseImage) (bbox : Option Rect) : ImageInfo :=
  let filename :=
    "page_" ++ toString (pageNum + 1) ++ "_img_" ++ toString imgIndex ++ "." ++ b.ext
  { pageNumber := pageNum + 1
    imageIndex := imgIndex
    filename := filename
    width := b.width
    height := b.height
    colorspace := b.colorspace
    bitsPerComponent := b.bpc
    xref := xref
    extension := b.ext
    sizeBytes := b.image.length
    bbox := bbox
    filepath := match outputDir with
      | some dir => some (pathJoin dir filename)
      | none => none
    base64 := match outputDir with
      | some _ => none
      | none => some (b64encode b.image)
    mimeType := match outputDir with
      | some _ => none
      | none => some ("image/" ++ b.ext) }

/-- Inner loop over one page's image entries (lines 76-142): break once the
running count reaches the maximum, skip failed extractions and images with
either dimension below `minSize`, otherwise append a record and count it. -/
def processEntries (ex : Nat → Option BaseImage) (rects : Nat → Nat → List Rect)
    (outputDir : Option String) (maxImages minSize pageNum : Nat) :
    List Nat → Nat → Nat → List ImageInfo → List ImageInfo × Nat
  | [], _, total, acc => (acc, total)
  | xref :: rest, idx, total, acc =>
    if maxImages ≤ total then (acc, total)
    else
      match ex xref with
      | none => processEntries ex rects outputDir maxImages minSize pageNum rest (idx + 1) total acc
      | some b =>
        if b.width < minSize ∨ b.height < minSize then
          processEntries ex rects outputDir maxImages minSize pageNum rest (idx + 1) total acc
        else
          processEntries ex rects outputDir maxImages minSize pageNum rest (idx + 1) (total + 1)
            (acc ++ [mkImageInfo outputDir pageNum idx xref b (rects pageNum xref).head?])

/-- Outer loop over pages (lines 67-142): break once the running count
reaches the maximum, otherwise process the page's entries. -/
def processPages (ex : Nat → Option BaseImage) (rects : Nat → Nat → List Rect)
    (outputDir : Option String) (maxImages minSize : Nat) :
    List (List Nat) → Nat → Nat → List ImageInfo → List ImageInfo × Nat
  | [], _, total, acc => (acc, total)
  | entries :: rest, pageNum, total, acc =>
    if maxImages ≤ total then (acc, total)
    else
      let r := processEntries ex rects outputDir maxImages minSize pageNum entries 0 total acc
      processPages ex rects outputDir maxImages minSize rest (pageNum + 1) r.2 r.1

/-- JSON result object of the image extractor. -/
structure ImagesResult where
  success : Bool
  images : Option (List ImageInfo)
  totalImages : Option Nat
  pageCount : Option Nat
  error : Option String
  method : String
  deriving Repr, DecidableEq

/-- `extract_images_from_pdf` (lines 46-153) on the path where the document
opens successfully: always a `success := true` result carrying the
accumulated records and counter.  The Python defaults `max_images=50`,
`min_size=100` are passed explicitly by callers here. -/
def extract_images_from_pdf (doc : PDFImages) (outputDir : Option String)
    (maxImages minSize : Nat) : ImagesResult :=
  let r := processPages doc.extractImage doc.imageRects outputDir maxImages minSize doc.pages 0 0 []
  { success := true
    images := some r.1
    totalImages := some r.2
    pageCount := some doc.pages.length
    error := none
    method := "pymupdf" }

/-- Usage error message of the image extractor's `main` (line 179). -/
def imagesUsageError : String :=
  "Usage: python3 extract-pdf-images.py <pdf_file_path> [output_directory]"

/-- `main` of the image extractor (lines 174-199): `argv` includes the
program name; `sys.argv[2]` supplies the optional output directory. -/
def images_main (argv : List String) (doc : PDFImages) : MainOutcome ImagesResult :=
  if argv.length < 2 then
    { printed :=
        { success := false
          images := none
          totalImages := none
          pageCount := none
          error := some imagesUsageError
          method := "pymupdf" }
      exitCode := 1
      libraryCalled := false }
  else
    let result := extract_images_from_pdf doc argv[2]? 50 100
    { printed := result
      exitCode := if result.success then 0 else 1
      libraryCalled := true }

/-- An entry qualifies when its extraction succeeds and both dimensions
reach `minSize` — exactly the records the inner loop accepts. -/
def qualifies (ex : Nat → Option BaseImage) (minSize xref : Nat) : Bool :=
  match ex xref with
  | none => false
  | some b => decide (minSize ≤ b.width) && decide (minSize ≤ b.height)

/-- Number of qualifying entries over a list of pages. -/
def qualifyingCount (ex : Nat → Option BaseImage) (minSize : Nat)
    (pages : List (List Nat)) : Nat :=
  (pages.map fun entries => (entries.filter (qualifies ex minSize)).length).sum

theorem processEntries_total (ex : Nat → Option BaseImage) (rects : Nat → Nat → List Rect)
    (od : Option String) (maxI minS pn : Nat) :
    ∀ (entries : List Nat) (idx total : Nat) (acc : List ImageInfo), total ≤ maxI →
      (processEntries ex rects od maxI minS pn entries idx total acc).2 =
        min (total + (entries.filter (qualifies ex minS)).length) maxI := by
  intro entries
  induction entries with
  | nil =>
    intro idx total acc h
    simp only [processEntries, List.filter_nil, List.length_nil, Nat.add_zero]
    omega
  | cons x rest ih =>
    intro idx total acc h
    by_cases hstop : maxI ≤ total
    · simp only [processEntries, if_pos hstop]
      omega
    · simp only [processEntries, if_neg hstop]
      split
      · rename_i hex
        have hq : qualifies ex minS x = false := by
          simp [qualifies, hex]
        rw [ih _ _ _ h]
        simp [List.filter_cons, hq]
      · rename_i b hex
        by_cases hdim : b.width < minS ∨ b.height < minS
        · rw [if_pos hdim, ih _ _ _ h]
          have hq : qualifies ex minS x = false := by
            simp only [qualifies, hex, Bool.and_eq_false_iff, decide_eq_false_iff_not,
              Nat.not_le]
            rcases hdim with h1 | h1
            · exact Or.inl (by omega)
            · exact Or.inr (by omega)
          simp [List.filter_cons, hq]
        · rw [if_neg hdim, ih _ _ _ (by omega)]
          have hq : qualifies ex minS x = true := by
            push_neg at hdim
            simp only [qualifies, hex, Bool.and_eq_true, decide_eq_true_eq]
            omega
          simp only [List.filter_cons, hq, if_pos, List.length_cons]
          omega

theorem processPages_total (ex : Nat → Option BaseImage) (rects : Nat → Nat → List Rect)
    (od : Option String) (maxI minS : Nat) :
    ∀ (pages : List (List Nat)) (pn total : Nat) (acc : List ImageInfo), total ≤ maxI →
      (processPages ex rects od maxI minS pages pn total acc).2 =
        min (total + qualifyingCount ex minS pages) maxI := by
  intro pages
  induction pages with
  | nil =>
    intro pn total acc h
    simp only [processPages, qualifyingCount, List.map_nil, List.sum_nil, Nat.add_zero]
    omega
  | cons entries rest ih =>
    intro pn total acc h
    by_cases hstop : maxI ≤ total
    · simp only [processPages, if_pos hstop]
      have : qualifyingCount ex minS (entries :: rest) =
          (entries.filter (qualifies ex minS)).length + qualifyingCount ex minS rest := by
        simp [qualifyingCount]
      omega
    · simp only [processPages, if_neg hstop]
      have h1 := processEntries_total ex rects od maxI minS pn entries 0 total acc h
      have h2 : (processEntries ex rects od maxI minS pn entries 0 total acc).2 ≤ maxI := by
        omega
      rw [ih _ _ _ h2, h1]
      have : qualifyingCount ex minS (entries :: rest) =
          (entries.filter (qualifies ex minS)).length + qualifyingCount ex minS rest := by
        simp [qualifyingCount]
      omega

theorem processEntries_lockstep (ex : Nat → Option BaseImage) (rects : Nat → Nat → List Rect)
    (od : Option String) (maxI minS pn : Nat) :
    ∀ (entries : List Nat) (idx total : Nat) (acc : List ImageInfo),
      (processEntries ex rects od maxI minS pn entries idx total acc).1.length + total =
        (processEntries ex rects od maxI minS pn entries idx total acc).2 + acc.length := by
  intro entries
  induction entries with
  | nil =>
    intro idx total acc
    simp only [processEntries]
    omega
  | cons x rest ih =>
    intro idx total acc
    by_cases hstop : maxI ≤ total
    · simp only [processEntries, if_pos hstop]
      omega
    · simp only [processEntries, if_neg hstop]
      split
      · exact ih _ _ _
      · rename_i b hex
        by_cases hdim : b.width < minS ∨ b.height < minS
        · rw [if_pos hdim]
          exact ih _ _ _
        · rw [if_neg hdim]
          have := ih (idx + 1) (total + 1)
            (acc ++ [mkImageInfo od pn idx x b (rects pn x).head?])
          simp only [List.length_append, List.length_cons, List.length_nil] at this
          omega

theorem processPages_lockstep (ex : Nat → Option BaseImage) (rects : Nat → Nat → List Rect)
    (od : Option String) (maxI minS : Nat) :
    ∀ (pages : List (List Nat)) (pn total : Nat) (acc : List ImageInfo),
      (processPages ex rects od maxI minS pages pn total acc).1.length + total =
        (processPages ex rects od maxI minS pages pn total acc).2 + acc.length := by
  intro pages
  induction pages with
  | nil =>
    intro pn total acc
    simp only [processPages]
    omega
  | cons entries rest ih =>
    intro pn total acc
    by_cases hstop : maxI ≤ total
    · simp only [processPages, if_pos hstop]
      omega
    · simp only [processPages, if_neg hstop]
      have h1 := processEntries_lockstep ex rects od maxI minS pn entries 0 total acc
      have h2 := ih (pn + 1)
        (processEntries ex rects od maxI minS pn entries 0 total acc).2
        (processEntries ex rects od maxI minS pn entries 0 total acc).1
      omega

theorem processPages_stop (ex : Nat → Option BaseImage) (rects : Nat → Nat → List Rect)
    (od : Option String) (maxI minS : Nat) (l : List (List Nat)) (pn total : Nat)
    (acc : List ImageInfo) (h : maxI ≤ total) :
    processPages ex rects od maxI minS l pn total acc = (acc, total) := by
  cases l with
  | nil => rfl
  | cons e rest => simp [processPages, if_pos h]

theorem processPages_append (ex : Nat → Option BaseImage) (rects : Nat → Nat → List Rect)
    (od : Option String) (maxI minS : Nat) :
    ∀ (l1 l2 : List (List Nat)) (pn total : Nat) (acc : List ImageInfo),
      processPages ex rects od maxI minS (l1 ++ l2) pn total acc =
        processPages ex rects od maxI minS l2 (pn + l1.length)
          (processPages ex rects od maxI minS l1 pn total acc).2
          (processPages ex rects od maxI minS l1 pn total acc).1 := by
  intro l1
  induction l1 with
  | nil => intro l2 pn total acc; simp [processPages]
  | cons e rest ih =>
    intro l2 pn total acc
    by_cases hstop : maxI ≤ total
    · rw [processPages_stop ex rects od maxI minS (e :: rest) pn total acc hstop]
      rw [processPages_stop ex rects od maxI minS ((e :: rest) ++ l2) pn total acc hstop]
      rw [processPages_stop ex rects od maxI minS l2 _ total acc hstop]
    · simp only [List.cons_append, processPages, if_neg hstop]
      simp only [List.append_eq]
      rw [ih]
      have heq : pn + 1 + rest.length = pn + (e :: rest).length := by
        simp only [List.length_cons]
        omega
      rw [heq]

/-- A 200×150 extractable image with two bytes of data. -/
def wImage : BaseImage := ⟨[72, 105], "png", 200, 150, 3, 8⟩

/-- A 99×99 image, below the size threshold in both dimensions. -/
def wSmall : BaseImage := ⟨[1], "png", 99, 99, 3, 8⟩

/-- A document with one page carrying one qualifying and one too-small
image. -/
def wDoc : PDFImages :=
  ⟨[[7, 8]],
   fun x => if x = 7 then some wImage else if x = 8 then some wSmall else none,
   fun _ _ => [⟨0, 0, 10, 10⟩]⟩

/-- A document whose only page has one unextractable image entry. -/
def emptyDoc : PDFImages := ⟨[[3]], fun _ => none, fun _ _ => []⟩

/-- A 100×100 image, exactly at the size threshold. -/
def bigImage : BaseImage := ⟨[65], "png", 100, 100, 3, 8⟩

/-- A document with 51 qualifying 100×100 images (xrefs 1..51) on one
page. -/
def cap51Doc : PDFImages :=
  ⟨[(List.range 51).map fun i => i + 1],
   fun x => if 1 ≤ x ∧ x ≤ 51 then some bigImage else none,
   fun _ _ => []⟩

/-- C10: in every successful image-extractor result, `totalImages` equals
the length of the `images` list — the counter and the list grow in
lockstep, once per accepted image. -/
theorem images_total_eq_length (doc : PDFImages) (od : Option String)
    (maxI minS : Nat) (imgs : List ImageInfo) (n : Nat)
    (hi : (extract_images_from_pdf doc od maxI minS).images = some imgs)
    (ht : (extract_images_from_pdf doc od maxI minS).totalImages = some n) :
    n = imgs.length := by
  simp only [extract_images_from_pdf, Option.some.injEq] at hi ht
  subst hi
  subst ht
  have := processPages_lockstep doc.extractImage doc.imageRects od maxI minS
    doc.pages 0 0 []
  simpa using this.symm

/-- Witness for C10 at a concrete document. -/
theorem images_total_eq_length_witness :
    (extract_images_from_pdf wDoc none 50 100).totalImages.getD 0 =
      ((extract_images_from_pdf wDoc none 50 100).images.getD []).length :=
  images_total_eq_length wDoc none 50 100 _ _ (by decide) (by decide)

/-- C9: whenever the image extractor opens the document, it reports
`success := true` and the process exits 0 — even when zero images qualify,
in which case `images` is `some []` and `totalImages` is `some 0`; there is
no content-insufficient failure. -/
theorem images_success_and_exit_zero (argv : List String) (doc : PDFImages)
    (h : 2 ≤ argv.length) :
    (images_main argv doc).printed.success = true ∧
    (images_main argv doc).exitCode = 0 ∧
    (images_main argv doc).libraryCalled = true ∧
    (qualifyingCount doc.extractImage 100 doc.pages = 0 →
      (images_main argv doc).printed.images = some [] ∧
      (images_main argv doc).printed.totalImages = some 0) := by
  have hlt : ¬ argv.length < 2 := by omega
  simp only [images_main, if_neg hlt]
  refine ⟨by trivial, by trivial, by trivial, ?_⟩
  intro hq
  have htot := processPages_total doc.extractImage doc.imageRects argv[2]? 50 100
    doc.pages 0 0 [] (by omega)
  have hlen := processPages_lockstep doc.extractImage doc.imageRects argv[2]? 50 100
    doc.pages 0 0 []
  simp only [List.length_nil] at hlen
  have hr2 : (processPages doc.extractImage doc.imageRects argv[2]? 50 100
      doc.pages 0 0 []).2 = 0 := by
    omega
  have hr1 : (processPages doc.extractImage doc.imageRects argv[2]? 50 100
      doc.pages 0 0 []).1 = [] := by
    have : (processPages doc.extractImage doc.imageRects argv[2]? 50 100
        doc.pages 0 0 []).1.length = 0 := by omega
    exact List.length_eq_zero.mp this
  constructor
  · simp only [extract_images_from_pdf, hr1]
  · simp only [extract_images_from_pdf, hr2]

/-- Witness for C9 at a document whose only image entry is unextractable. -/
theorem images_success_and_exit_zero_witness :
    (images_main ["prog", "doc.pdf"] emptyDoc).printed.success = true ∧
    (images_main ["prog", "doc.pdf"] emptyDoc).exitCode = 0 ∧
    (images_main ["prog", "doc.pdf"] emptyDoc).libraryCalled = true ∧
    (qualifyingCount emptyDoc.extractImage 100 emptyDoc.pages = 0 →
      (images_main ["prog", "doc.pdf"] emptyDoc).printed.images = some [] ∧
      (images_main ["prog", "doc.pdf"] emptyDoc).printed.totalImages = some 0) :=
  images_success_and_exit_zero ["prog", "doc.pdf"] emptyDoc (by decide)

/-- C5: the returned list never exceeds 50 records; with more than 50
qualifying images exactly 50 are returned; and once 50 qualifying images
have been accepted, appending further pages to the document changes
nothing — the iteration has stopped entirely. -/
theorem images_capped_at_50 (doc : PDFImages) (od : Option String)
    (imgs : List ImageInfo)
    (h : (extract_images_from_pdf doc od 50 100).images = some imgs) :
    imgs.length ≤ 50 ∧
      (50 < qualifyingCount doc.extractImage 100 doc.pages → imgs.length = 50) ∧
      ∀ extra : List (List Nat), 50 ≤ qualifyingCount doc.extractImage 100 doc.pages →
        (extract_images_from_pdf ⟨doc.pages ++ extra, doc.extractImage, doc.imageRects⟩
          od 50 100).images = some imgs := by
  simp only [extract_images_from_pdf, Option.some.injEq] at h
  subst h
  have htot := processPages_total doc.extractImage doc.imageRects od 50 100
    doc.pages 0 0 [] (by omega)
  have hlen := processPages_lockstep doc.extractImage doc.imageRects od 50 100
    doc.pages 0 0 []
  simp only [List.length_nil] at hlen
  refine ⟨by omega, by intro hq; omega, ?_⟩
  intro extra hq
  simp only [extract_images_from_pdf, Option.some.injEq]
  rw [processPages_append, processPages_stop]
  omega

/-- Witness for C5: with 51 qualifying images, exactly 50 records come
back. -/
theorem images_capped_at_50_witness :
    ((extract_images_from_pdf cap51Doc none 50 100).images.getD []).length = 50 :=
  (images_capped_at_50 cap51Doc none _ (by decide)).2.1 (by decide)

theorem b64Alphabet_length : b64Alphabet.length = 64 := rfl

theorem charToVal_valToChar : ∀ n, n < 64 → charToVal (valToChar n) = some n := by
  decide

theorem valToChar_ne_eq : ∀ n, valToChar n ≠ '=' := by
  intro n h
  by_cases hn : n < 64
  · exact absurd h ((by decide : ∀ m, m < 64 → valToChar m ≠ '=') n hn)
  · rw [valToChar, List.getD_eq_default] at h
    · exact absurd h (by decide)
    · rw [b64Alphabet_length]
      omega

theorem b64decode_cons (c1 c2 c3 c4 : Char) (rest : List Char) :
    b64decode (c1 :: c2 :: c3 :: c4 :: rest) =
      if c3 = '=' ∧ c4 = '=' ∧ rest = [] then
        (charToVal c1).bind fun a => (charToVal c2).bind fun b =>
          some [a * 4 + b / 16]
      else if c4 = '=' ∧ rest = [] then
        (charToVal c1).bind fun a => (charToVal c2).bind fun b =>
          (charToVal c3).bind fun c =>
            some [a * 4 + b / 16, b % 16 * 16 + c / 4]
      else
        (charToVal c1).bind fun a => (charToVal c2).bind fun b =>
          (charToVal c3).bind fun c => (charToVal c4).bind fun d =>
            (b64decode rest).bind fun r =>
              some ((a * 4 + b / 16) :: (b % 16 * 16 + c / 4) :: (c % 4 * 64 + d) :: r) :=
  rfl

/-- Decoding inverts encoding on genuine byte strings. -/
theorem b64decode_encode : ∀ (l : List Nat), (∀ y ∈ l, y < 256) →
    b64decode (b64encode l) = some l
  | [] => fun _ => rfl
  | [a] => fun h => by
    have ha : a < 256 := h a (by simp)
    have h1 := charToVal_valToChar (a / 4) (by omega)
    have h2 := charToVal_valToChar (a % 4 * 16) (by omega)
    rw [show b64encode [a] = [valToChar (a / 4), valToChar (a % 4 * 16), '=', '='] from rfl]
    rw [b64decode_cons, if_pos ⟨rfl, rfl, rfl⟩, h1, h2]
    simp only [Option.some_bind, Option.some.injEq, List.cons.injEq, and_true]
    omega
  | [a, b] => fun h => by
    have ha : a < 256 := h a (by simp)
    have hb : b < 256 := h b (by simp)
    have h1 := charToVal_valToChar (a / 4) (by omega)
    have h2 := charToVal_valToChar (a % 4 * 16 + b / 16) (by omega)
    have h3 := charToVal_valToChar (b % 16 * 4) (by omega)
    have hne3 : valToChar (b % 16 * 4) ≠ '=' := valToChar_ne_eq _
    rw [show b64encode [a, b] = [valToChar (a / 4), valToChar (a % 4 * 16 + b / 16),
      valToChar (b % 16 * 4), '='] from rfl]
    rw [b64decode_cons, if_neg fun hcon => hne3 hcon.1, if_pos ⟨rfl, rfl⟩, h1, h2, h3]
    simp only [Option.some_bind, Option.some.injEq, List.cons.injEq, and_true]
    omega
  | a :: b :: c :: t => fun h => by
    have ha : a < 256 := h a (by simp)
    have hb : b < 256 := h b (by simp)
    have hc : c < 256 := h c (by simp)
    have ih := b64decode_encode t fun y hy => h y (by simp [hy])
    have h1 := charToVal_valToChar (a / 4) (by omega)
    have h2 := charToVal_valToChar (a % 4 * 16 + b / 16) (by omega)
    have h3 := charToVal_valToChar (b % 16 * 4 + c / 64) (by omega)
    have h4 := charToVal_valToChar (c % 64) (by omega)
    have hne3 : valToChar (b % 16 * 4 + c / 64) ≠ '=' := valToChar_ne_eq _
    have hne4 : valToChar (c % 64) ≠ '=' := valToChar_ne_eq _
    rw [show b64encode (a :: b :: c :: t) = valToChar (a / 4) ::
      valToChar (a % 4 * 16 + b / 16) :: valToChar (b % 16 * 4 + c / 64) ::
      valToChar (c % 64) :: b64encode t from rfl]
    rw [b64decode_cons, if_neg fun hcon => hne3 hcon.1,
      if_neg fun hcon => hne4 hcon.1, h1, h2, h3, h4, ih]
    simp only [Option.some_bind, Option.some.injEq, List.cons.injEq, and_true]
    refine ⟨by omega, by omega, by omega⟩

/-- C8: invoking either extractor with zero arguments (so `sys.argv` holds
only the program name) prints a single `success := false` JSON object with
the usage error and the `method` tag, exits with status 1, and never calls
the PDF library. -/
theorem usage_error_no_args (prog : String) (d : List (List Char)) (doc : PDFImages) :
    text_main [prog] d =
      ⟨⟨false, none, none, none, some textUsageError, "pymupdf"⟩, 1, false⟩ ∧
    images_main [prog] doc =
      ⟨⟨false, none, none, none, some imagesUsageError, "pymupdf"⟩, 1, false⟩ :=
  ⟨rfl, rfl⟩

/-- All fields an accepted record inherits from its base image, plus the
mode-dependent presence of `filepath` versus `base64`/`mimeType`. -/
def goodRecord (ex : Nat → Option BaseImage) (od : Option String) (minS : Nat)
    (r : ImageInfo) : Prop :=
  ∃ b, ex r.xref = some b ∧ minS ≤ b.width ∧ minS ≤ b.height ∧
    r.width = b.width ∧ r.height = b.height ∧ r.sizeBytes = b.image.length ∧
    r.extension = b.ext ∧
    (match od with
     | none => r.filepath = none ∧ r.base64 = some (b64encode b.image) ∧
         r.mimeType = some ("image/" ++ b.ext)
     | some dir => r.filepath = some (pathJoin dir r.filename) ∧
         r.base64 = none ∧ r.mimeType = none)

theorem processEntries_good (ex : Nat → Option BaseImage) (rects : Nat → Nat → List Rect)
    (od : Option String) (maxI minS pn : Nat) :
    ∀ (entries : List Nat) (idx total : Nat) (acc : List ImageInfo),
      (∀ r ∈ acc, goodRecord ex od minS r) →
      ∀ r ∈ (processEntries ex rects od maxI minS pn entries idx total acc).1,
        goodRecord ex od minS r := by
  intro entries
  induction entries with
  | nil => intro idx total acc hacc; exact hacc
  | cons x rest ih =>
    intro idx total acc hacc
    by_cases hstop : maxI ≤ total
    · simp only [processEntries, if_pos hstop]
      exact hacc
    · simp only [processEntries, if_neg hstop]
      split
      · exact ih _ _ _ hacc
      · rename_i b hex
        by_cases hdim : b.width < minS ∨ b.height < minS
        · rw [if_pos hdim]
          exact ih _ _ _ hacc
        · rw [if_neg hdim]
          refine ih _ _ _ ?_
          intro r hr
          rcases List.mem_append.mp hr with hr | hr
          · exact hacc r hr
          · push_neg at hdim
            rcases List.mem_singleton.mp hr with rfl
            refine ⟨b, hex, by omega, by omega, rfl, rfl, rfl, rfl, ?_⟩
            cases od with
            | none => exact ⟨rfl, rfl, rfl⟩
            | some dir => exact ⟨rfl, rfl, rfl⟩

theorem processPages_good (ex : Nat → Option BaseImage) (rects : Nat → Nat → List Rect)
    (od : Option String) (maxI minS : Nat) :
    ∀ (pages : List (List Nat)) (pn total : Nat) (acc : List ImageInfo),
      (∀ r ∈ acc, goodRecord ex od minS r) →
      ∀ r ∈ (processPages ex rects od maxI minS pages pn total acc).1,
        goodRecord ex od minS r := by
  intro pages
  induction pages with
  | nil => intro pn total acc hacc; exact hacc
  | cons entries rest ih =>
    intro pn total acc hacc
    by_cases hstop : maxI ≤ total
    · simp only [processPages, if_pos hstop]
      exact hacc
    · simp only [processPages, if_neg hstop]
      exact ih _ _ _ (processEntries_good ex rects od maxI minS pn entries 0 total acc hacc)

theorem processEntries_prov (ex : Nat → Option BaseImage) (rects : Nat → Nat → List Rect)
    (od : Option String) (maxI minS pn : Nat) :
    ∀ (entries : List Nat) (idx total : Nat) (acc : List ImageInfo),
      ∀ r ∈ (processEntries ex rects od maxI minS pn entries idx total acc).1,
        r ∈ acc ∨ (r.xref ∈ entries ∧ r.pageNumber = pn + 1) := by
  intro entries
  induction entries with
  | nil => intro idx total acc r hr; exact Or.inl hr
  | cons x rest ih =>
    intro idx total acc r hr
    by_cases hstop : maxI ≤ total
    · simp only [processEntries, if_pos hstop] at hr
      exact Or.inl hr
    · simp only [processEntries, if_neg hstop] at hr
      split at hr
      · rcases ih _ _ _ r hr with h1 | ⟨h2, h3⟩
        · exact Or.inl h1
        · exact Or.inr ⟨List.mem_cons_of_mem x h2, h3⟩
      · rename_i b hax
        by_cases hdim : b.width < minS ∨ b.height < minS
        · rw [if_pos hdim] at hr
          rcases ih _ _ _ r hr with h1 | ⟨h2, h3⟩
          · exact Or.inl h1
          · exact Or.inr ⟨List.mem_cons_of_mem x h2, h3⟩
        · rw [if_neg hdim] at hr
          rcases ih _ _ _ r hr with h1 | ⟨h2, h3⟩
          · rcases List.mem_append.mp h1 with h1 | h1
            · exact Or.inl h1
            · rcases List.mem_singleton.mp h1 with rfl
              exact Or.inr ⟨List.mem_cons_self x rest, rfl⟩
          · exact Or.inr ⟨List.mem_cons_of_mem x h2, h3⟩

theorem processPages_prov (ex : Nat → Option BaseImage) (rects : Nat → Nat → List Rect)
    (od : Option String) (maxI minS : Nat) :
    ∀ (pages : List (List Nat)) (pn total : Nat) (acc : List ImageInfo),
      ∀ r ∈ (processPages ex rects od maxI minS pages pn total acc).1,
        r ∈ acc ∨ ∃ i entries, pages[i]? = some entries ∧ r.xref ∈ entries ∧
          r.pageNumber = pn + i + 1 := by
  intro pages
  induction pages with
  | nil => intro pn total acc r hr; exact Or.inl hr
  | cons entries rest ih =>
    intro pn total acc r hr
    by_cases hstop : maxI ≤ total
    · simp only [processPages, if_pos hstop] at hr
      exact Or.inl hr
    · simp only [processPages, if_neg hstop] at hr
      rcases ih _ _ _ r hr with h1 | ⟨i, es, h2, h3, h4⟩
      · rcases processEntries_prov ex rects od maxI minS pn entries 0 total acc r h1
          with ha | ⟨hx, hpn⟩
        · exact Or.inl ha
        · exact Or.inr ⟨0, entries, by simp, hx, by omega⟩
      · exact Or.inr ⟨i + 1, es, by simpa using h2, h3, by omega⟩

/-- A document in which the same image object (xref 7) is placed on two
pages. -/
def dupDoc : PDFImages :=
  ⟨[[7], [7]], fun x => if x = 7 then some wImage else none, fun _ _ => []⟩

/-- A document with one 100×100 image (entry 1) and one 99×99 image
(entry 2) on a single page. -/
def thresholdDoc : PDFImages :=
  ⟨[[1, 2]],
   fun x => if x = 1 then some bigImage else if x = 2 then some wSmall else none,
   fun _ _ => []⟩

/-- C3 fails on the code: with the same image (xref 7) placed on two pages,
the extractor returns two records that share `xref = 7` — nothing
deduplicates by xref. -/
theorem images_dedup_cex :
    ((extract_images_from_pdf dupDoc none 50 100).images.getD []).map ImageInfo.xref
        = [7, 7] ∧
      ¬ (((extract_images_from_pdf dupDoc none 50 100).images.getD []).map
          ImageInfo.xref).Nodup := by
  decide

/-- C3 amended: the extractor performs no deduplication by `xref`; each
record's `xref` is simply one of the reference ids enumerated on the page
the record names (so the same `xref` may recur in several records, once per
accepted occurrence). -/
theorem images_xref_from_page_enumeration (doc : PDFImages) (od : Option String)
    (imgs : List ImageInfo)
    (h : (extract_images_from_pdf doc od 50 100).images = some imgs) :
    ∀ r ∈ imgs, ∃ i entries, doc.pages[i]? = some entries ∧ r.xref ∈ entries ∧
      r.pageNumber = i + 1 := by
  simp only [extract_images_from_pdf, Option.some.injEq] at h
  subst h
  intro r hr
  rcases processPages_prov doc.extractImage doc.imageRects od 50 100 doc.pages 0 0 []
      r hr with hfalse | ⟨i, entries, h1, h2, h3⟩
  · cases hfalse
  · exact ⟨i, entries, h1, h2, by omega⟩

/-- Witness for the amended C3 at the duplicate-xref document and its first
record. -/
theorem images_xref_from_page_enumeration_witness :
    ∃ i entries, dupDoc.pages[i]? = some entries ∧
      (⟨1, 0, "page_1_img_0.png", 200, 150, 3, 8, 7, "png", 2, none, none,
        some (b64encode [72, 105]), some "image/png"⟩ : ImageInfo).xref ∈ entries ∧
      (⟨1, 0, "page_1_img_0.png", 200, 150, 3, 8, 7, "png", 2, none, none,
        some (b64encode [72, 105]), some "image/png"⟩ : ImageInfo).pageNumber = i + 1 :=
  images_xref_from_page_enumeration dupDoc none
    ((extract_images_from_pdf dupDoc none 50 100).images.getD []) (by decide) _
    (by decide)

/-- C7 fails as an if-and-only-if: in a document with 51 qualifying 100×100
images, image xref 51 is exactly 100×100 and enumerated on a page, yet no
returned record carries it — the 50-image cap was reached first. -/
theorem images_minsize_iff_cex :
    cap51Doc.extractImage 51 = some bigImage ∧
      bigImage.width = 100 ∧ bigImage.height = 100 ∧
      (∃ p ∈ cap51Doc.pages, 51 ∈ p) ∧
      ∀ r ∈ (extract_images_from_pdf cap51Doc none 50 100).images.getD [],
        r.xref ≠ 51 := by
  decide

/-- C7 amended: both dimensions at least 100 is necessary for inclusion —
a 99×99 image is never included — and, whenever at most 50 images qualify
(so the cap is not hit), it is also sufficient: the extractor returns one
record per qualifying image, a 100×100 image included. -/
theorem images_minsize_filter (doc : PDFImages) (od : Option String)
    (imgs : List ImageInfo)
    (h : (extract_images_from_pdf doc od 50 100).images = some imgs) :
    (∀ r ∈ imgs, 100 ≤ r.width ∧ 100 ≤ r.height) ∧
      (qualifyingCount doc.extractImage 100 doc.pages ≤ 50 →
        imgs.length = qualifyingCount doc.extractImage 100 doc.pages) := by
  simp only [extract_images_from_pdf, Option.some.injEq] at h
  subst h
  constructor
  · intro r hr
    obtain ⟨b, _, hw, hh, hrw, hrh, _, _, _⟩ :=
      processPages_good doc.extractImage doc.imageRects od 50 100 doc.pages 0 0 []
        (by intro r hr; cases hr) r hr
    omega
  · intro hq
    have htot := processPages_total doc.extractImage doc.imageRects od 50 100
      doc.pages 0 0 [] (by omega)
    have hlen := processPages_lockstep doc.extractImage doc.imageRects od 50 100
      doc.pages 0 0 []
    simp only [List.length_nil] at hlen
    omega

/-- Witness for the amended C7 at the threshold document (one 100×100 image
in, one 99×99 image out). -/
theorem images_minsize_filter_witness :
    (∀ r ∈ (extract_images_from_pdf thresholdDoc none 50 100).images.getD [],
        100 ≤ r.width ∧ 100 ≤ r.height) ∧
      (qualifyingCount thresholdDoc.extractImage 100 thresholdDoc.pages ≤ 50 →
        ((extract_images_from_pdf thresholdDoc none 50 100).images.getD []).length =
          qualifyingCount thresholdDoc.extractImage 100 thresholdDoc.pages) :=
  images_minsize_filter thresholdDoc none _ (by decide)

/-- Byte strings wDoc's extractable images carry are genuine bytes. -/
theorem wDoc_bytes_bound : ∀ x b, wDoc.extractImage x = some b →
    ∀ y ∈ b.image, y < 256 := by
  intro x b hxb
  by_cases h7 : x = 7
  · subst h7
    rw [show wDoc.extractImage 7 = some wImage from rfl] at hxb
    injection hxb with hb
    subst hb
    decide
  · by_cases h8 : x = 8
    · subst h8
      rw [show wDoc.extractImage 8 = some wSmall from rfl] at hxb
      injection hxb with hb
      subst hb
      decide
    · have hnone : wDoc.extractImage x = none := by
        simp [wDoc, h7, h8]
      rw [hnone] at hxb
      cases hxb

/-- C6: with no output directory, every record has a `base64` field that
decodes back to the original image bytes, whose length is `sizeBytes`, a
`mimeType` of the form `image/<extension>`, and no `filepath`; with an
output directory, every record has a `filepath` and neither `base64` nor
`mimeType` — the two modes are mutually exclusive per invocation. -/
theorem images_inline_disk_modes (doc : PDFImages) (od : Option String)
    (imgs : List ImageInfo)
    (hwf : ∀ x b, doc.extractImage x = some b → ∀ y ∈ b.image, y < 256)
    (h : (extract_images_from_pdf doc od 50 100).images = some imgs) :
    ∀ r ∈ imgs,
      (od = none → r.filepath = none ∧
        r.mimeType = some ("image/" ++ r.extension) ∧
        ∃ b, doc.extractImage r.xref = some b ∧
          r.base64 = some (b64encode b.image) ∧
          b64decode (b64encode b.image) = some b.image ∧
          b.image.length = r.sizeBytes) ∧
      (∀ dir, od = some dir → r.filepath = some (pathJoin dir r.filename) ∧
        r.base64 = none ∧ r.mimeType = none) := by
  simp only [extract_images_from_pdf, Option.some.injEq] at h
  subst h
  intro r hr
  obtain ⟨b, hex, hw, hh, hrw, hrh, hsz, hext, hmode⟩ :=
    processPages_good doc.extractImage doc.imageRects od 50 100 doc.pages 0 0 []
      (by intro r hr; cases hr) r hr
  constructor
  · rintro rfl
    obtain ⟨hf, hb64, hmime⟩ := hmode
    refine ⟨hf, ?_, b, hex, hb64, b64decode_encode b.image (hwf _ _ hex), hsz.symm⟩
    rw [hmime, hext]
  · rintro dir rfl
    exact hmode

/-- The single record wDoc's inline-mode run produces. -/
def wRecord : ImageInfo :=
  ⟨1, 0, "page_1_img_0.png", 200, 150, 3, 8, 7, "png", 2, some ⟨0, 0, 10, 10⟩, none,
   some (b64encode [72, 105]), some "image/png"⟩

/-- Witness for C6 in inline mode at a concrete document and its record. -/
theorem images_inline_disk_modes_witness :
    ((none : Option String) = none → wRecord.filepath = none ∧
      wRecord.mimeType = some ("image/" ++ wRecord.extension) ∧
      ∃ b, wDoc.extractImage wRecord.xref = some b ∧
        wRecord.base64 = some (b64encode b.image) ∧
        b64decode (b64encode b.image) = some b.image ∧
        b.image.length = wRecord.sizeBytes) ∧
    (∀ dir, (none : Option String) = some dir →
      wRecord.filepath = some (pathJoin dir wRecord.filename) ∧
      wRecord.base64 = none ∧ wRecord.mimeType = none) :=
  images_inline_disk_modes wDoc none
    ((extract_images_from_pdf wDoc none 50 100).images.getD [])
    wDoc_bytes_bound (by decide) wRecord (by decide)

end Synaptic
